import Mathlib

/-!
Verification of the AV writer module (pupil_src/shared_modules/av_writer.py).

Shallow embedding: wall-clock timestamps and time bases are rationals,
PTS values are integers, the writer state is an explicit record, and the
stateful generators are modelled as pure functions threading their state.
The external encoding library (stream.encode, container.mux) is modelled
by oracle parameters producing packet lists.
-/

namespace AvWriter

/-- Python int() applied to a rational: truncation toward zero. -/
def pyInt (q : ℚ) : ℤ := if 0 ≤ q then ⌊q⌋ else ⌈q⌉

/-- The fixed video time base, Fraction(1, 65535) in AV_Writer.__init__. -/
def time_base : ℚ := 1 / 65535

/-- Stream identity of a packet (the module has one video and at most one
audio stream). -/
inductive StreamId
  | video
  | audio
deriving DecidableEq, Repr

/-- A muxed packet: stream identity and integer pts/dts. -/
structure Packet where
  stream : StreamId
  pts : ℤ
  dts : ℤ
deriving DecidableEq, Repr

/-- A video input frame as consumed by write_video_frame. -/
structure Frame where
  width : ℕ
  height : ℕ
  timestamp : ℚ
  index : ℕ
deriving DecidableEq, Repr

/-- State of an AV_Writer instance: the mutable fields of the Python
object plus effect counters for the container-level side effects (flush,
container close, timestamp export). -/
structure WriterState where
  start_time : ℚ
  timestamps : List ℚ
  last_video_pts : Option ℤ
  configured : Bool
  closed : Bool
  width : Option ℕ
  height : Option ℕ
  onFirstFrameRun : Bool
  muxed : List Packet
  flushCount : ℕ
  containerCloseCount : ℕ
  exportCount : ℕ
  exported : Option (List ℚ)
deriving DecidableEq, Repr

/-- Writer state directly after AV_Writer.__init__. last_video_pts is
float negative infinity in the source, modelled as none. -/
def initWriter (start_time_synced : ℚ) : WriterState :=
  { start_time := start_time_synced
    timestamps := []
    last_video_pts := none
    configured := false
    closed := false
    width := none
    height := none
    onFirstFrameRun := false
    muxed := []
    flushCount := 0
    containerCloseCount := 0
    exportCount := 0
    exported := none }

/-- pts = max(pts, self.last_video_pts + 1): negative infinity plus one is
negative infinity, so with no previous value the candidate passes through. -/
def nextPts (last : Option ℤ) (candidate : ℤ) : ℤ :=
  match last with
  | none => candidate
  | some l => max candidate (l + 1)

/-- pts = int((input_frame.timestamp - self.start_time) / self.time_base). -/
def candidatePts (start_time ts : ℚ) : ℤ :=
  pyInt ((ts - start_time) / time_base)

/-- AV_Writer.close(timestamp_export_format): no-op when already closed;
otherwise flush the video encoder when configured, close the container,
and export the timestamp ledger when configured and a format is given.
flushPkts is the oracle for the packets the encoder flush yields. -/
def closeWriter (flushPkts : List Packet) (fmt : Option String)
    (s : WriterState) : WriterState :=
  if s.closed then s
  else
    let s1 :=
      if s.configured then
        { s with muxed := s.muxed ++ flushPkts, flushCount := s.flushCount + 1 }
      else s
    let s2 := { s1 with
      closed := true
      containerCloseCount := s1.containerCloseCount + 1 }
    if s2.configured && fmt.isSome then
      { s2 with exportCount := s2.exportCount + 1, exported := some s2.timestamps }
    else s2

/-- AV_Writer.release(): close with the default export format. -/
def releaseWriter (flushPkts : List Packet) (s : WriterState) : WriterState :=
  closeWriter flushPkts (some "npy") s

/-- Outcome of one write_video_frame call. -/
inductive WriteOutcome
  | alreadyClosed
  | beforeStart
  | nonMonotonicError
  | encodeFailed
  | accepted (pts : ℤ)
deriving DecidableEq, Repr

/-- The one-time configuration block of write_video_frame: bind
width/height to the stream and run the on_first_frame hook. -/
def configureIfNeeded (s : WriterState) (f : Frame) : WriterState :=
  if s.configured then s
  else { s with
    configured := true
    width := some f.width
    height := some f.height
    onFirstFrameRun := true }

/-- Whether a packet list contains a packet on the video stream
(the video_packed_encoded flag of write_video_frame). -/
def hasVideoPacket (pkts : List Packet) : Bool :=
  pkts.any (fun p => decide (p.stream = StreamId.video))

/-- The non-monotonicity test of write_video_frame: true when the ledger
is nonempty and the new timestamp is below its last entry. -/
def lastTsCheck (tss : List ℚ) (ts : ℚ) : Bool :=
  match tss.getLast? with
  | some last_ts => decide (ts < last_ts)
  | none => false

/-- AV_Writer.write_video_frame, parameterised by the subclass encoder
(enc, modelling encode_frame) and the encoder flush oracle used when the
non-monotonicity error path releases the writer. -/
def writeVideoFrame (enc : Frame → ℤ → List Packet) (flushPkts : List Packet)
    (s : WriterState) (f : Frame) : WriterState × WriteOutcome :=
  if s.closed then (s, .alreadyClosed)
  else
    let s1 := configureIfNeeded s f
    let ts := f.timestamp
    if ts < s1.start_time then (s1, .beforeStart)
    else if lastTsCheck s1.timestamps ts then
      (releaseWriter flushPkts s1, .nonMonotonicError)
    else
      let pts := nextPts s1.last_video_pts (candidatePts s1.start_time ts)
      let pkts := enc f pts
      let s2 := { s1 with muxed := s1.muxed ++ pkts }
      if hasVideoPacket pkts then
        ({ s2 with
            last_video_pts := some pts
            timestamps := s2.timestamps ++ [ts] }, .accepted pts)
      else (s2, .encodeFailed)

/-- Run a sequence of write_video_frame calls, collecting the outcomes. -/
def runFrames (enc : Frame → ℤ → List Packet) (flushPkts : List Packet) :
    WriterState → List Frame → WriterState × List WriteOutcome
  | s, [] => (s, [])
  | s, f :: fs =>
    let r := writeVideoFrame enc flushPkts s f
    let rest := runFrames enc flushPkts r.1 fs
    (rest.1, r.2 :: rest.2)

/-- JPEG_Writer.encode_frame: exactly one packet on the video stream with
pts = dts = the assigned pts. -/
def jpegEncodeFrame (_f : Frame) (pts : ℤ) : List Packet :=
  [{ stream := StreamId.video, pts := pts, dts := pts }]

/-- An encoded audio packet as produced by the audio export stream, before
being muxed: only its integer pts matters for the drain logic. -/
structure AudioPacket where
  pts : ℤ
deriving DecidableEq

/-- The audio drain loop at the end of MPEG_Audio_Writer.encode_frame:
yield packets from the stateful iterator in order, and stop (pausing the
iterator) right after yielding the first packet whose timestamp
pts * audio_time_base exceeds frame_ts. Returns the yielded packets and
the remaining iterator state. -/
def drainAudioPackets (audio_tb frame_ts : ℚ) :
    List AudioPacket → List AudioPacket × List AudioPacket
  | [] => ([], [])
  | p :: rest =>
    if frame_ts < (p.pts : ℚ) * audio_tb then ([p], rest)
    else
      let r := drainAudioPackets audio_tb frame_ts rest
      (p :: r.1, r.2)

/-- MPEG_Audio_Writer.encode_frame with an audio stream configured: the
video packets of the current frame first, then the drained audio packets;
frame_ts = self.frame.pts * self.time_base. Also returns the paused
iterator state for the next call. -/
def encodeFrameWithAudio (videoPkts : List Packet) (audio_tb : ℚ) (pts : ℤ)
    (queue : List AudioPacket) : List Packet × List AudioPacket :=
  let frame_ts := (pts : ℚ) * time_base
  let r := drainAudioPackets audio_tb frame_ts queue
  (videoPkts ++ r.1.map (fun p => { stream := StreamId.audio, pts := p.pts, dts := p.pts }), r.2)

/-- A raw decoded-and-reencoded audio packet from an audio part, before
pts assignment: only its duration (in wall-clock seconds) matters to the
gap filler. -/
structure RawPacket where
  duration : ℚ
deriving DecidableEq

/-- One item of the raw audio packet sequence produced by
_iterate_audio_packets_with_part_marker: a real packet paired with its
wall-clock timestamp, or the part-end marker (yielded with timestamp 0). -/
inductive AudioItem
  | pkt (p : RawPacket) (ts : ℚ)
  | marker (ts : ℚ)
deriving DecidableEq

/-- The timestamp component of an item (curr_ts in the source). -/
def AudioItem.ts : AudioItem → ℚ
  | .pkt _ t => t
  | .marker t => t

/-- One item of the gap-filled sequence: a real packet with its timestamp,
or one synthesized silence packet with its frame timestamp. -/
inductive OutItem
  | real (p : RawPacket) (ts : ℚ)
  | silence (ts : ℚ)
deriving DecidableEq

/-- The timestamp of an output item (raw_ts in iterate_audio_packets). -/
def OutItem.ts : OutItem → ℚ
  | .real _ t => t
  | .silence t => t

/-- Whether an output item is a synthesized silence packet. -/
def OutItem.isSilence : OutItem → Bool
  | .real _ _ => false
  | .silence _ => true

/-- What the loop body yields for curr: the packet when it is real,
nothing when it is the part-end marker. -/
def yieldOfItem : AudioItem → List OutItem
  | .pkt p t => [.real p t]
  | .marker _ => []

/-- Model of _iterate_audio_packets_filling_gaps: the history list is a stack with
its top at the head; the initial entry (None, None) is modelled as none,
later entries as some item. The result is none when the Python code would
crash (popping an empty history, or taking .duration of the (None, None)
entry or of the Ellipsis marker). sil is the silence generator
(_generate_silence_packets) given start_ts and duration. -/
def fillGapsAux (sil : ℚ → ℚ → List OutItem) :
    List AudioItem → List (Option AudioItem) → Option (List OutItem)
  | [], _ => some []
  | curr :: rest, hist =>
    match hist with
    | [] => none
    | prev :: hist1 =>
      match prev with
      | some (.marker _) =>
        match hist1 with
        | [] => none
        | prev2 :: hist2 =>
          match prev2 with
          | some (.pkt p pts) =>
            let start_ts := pts + p.duration
            let dur := curr.ts - start_ts
            (fillGapsAux sil rest (some curr :: hist2)).map
              (fun out => sil start_ts dur ++ yieldOfItem curr ++ out)
          | _ => none
      | _ =>
        (fillGapsAux sil rest (some curr :: prev :: hist1)).map
          (fun out => yieldOfItem curr ++ out)

/-- Model of _iterate_audio_packets_filling_gaps from its initial history
[(None, None)]. -/
def fillGaps (sil : ℚ → ℚ → List OutItem) (items : List AudioItem) :
    Option (List OutItem) :=
  fillGapsAux sil items [none]

/-- Model of _iterate_audio_packets: the non-gap-filling variant simply drops the
part-end markers. -/
def dropMarkers (items : List AudioItem) : List OutItem :=
  items.filterMap (fun it => (yieldOfItem it).head?)

/-- sample_count = int(sample_rate * duration). -/
def silenceSampleCount (sample_rate : ℕ) (duration : ℚ) : ℤ :=
  pyInt (sample_rate * duration)

/-- frame_count = math.ceil(sample_count / frame_size). -/
def silenceFrameCount (sample_rate frame_size : ℕ) (duration : ℚ) : ℤ :=
  ⌈(silenceSampleCount sample_rate duration : ℚ) / (frame_size : ℚ)⌉

/-- The per-frame sample counts of _generate_silence_packets:
frame_samples = min(sample_count - frame_idx * frame_size, frame_size)
for frame_idx in range(frame_count). -/
def silenceChunkSizes (sample_rate frame_size : ℕ) (duration : ℚ) : List ℤ :=
  let sc := silenceSampleCount sample_rate duration
  (List.range (silenceFrameCount sample_rate frame_size duration).toNat).map
    (fun (i : ℕ) => min (sc - (i : ℤ) * (frame_size : ℤ)) (frame_size : ℤ))

/-- The (packet, frame_timestamp) stream of _generate_silence_packets,
one silence packet per generated frame, with frame_timestamp starting at
start_ts and incremented by 1/sample_rate per frame. -/
def silenceItems (sample_rate frame_size : ℕ) (start_ts duration : ℚ) :
    List OutItem :=
  (List.range (silenceFrameCount sample_rate frame_size duration).toNat).map
    (fun (i : ℕ) => .silence (start_ts + (i : ℚ) * (1 / (sample_rate : ℚ))))

/-- A final audio packet after pts assignment in iterate_audio_packets. -/
structure MuxedAudioPacket where
  item : OutItem
  pts : ℤ
deriving DecidableEq

/-- The pts-assignment loop of _AudioPacketIterator.iterate_audio_packets:
audio_pts = max(int((raw_ts - start_time) / audio_tb), last + 1); when the
relative timestamp is negative the generator returns, ending the whole
iteration. -/
def assignAudioPts (start_time audio_tb : ℚ) :
    Option ℤ → List OutItem → List MuxedAudioPacket
  | _, [] => []
  | last, it :: rest =>
    let audio_ts := it.ts - start_time
    let pts := nextPts last (pyInt (audio_ts / audio_tb))
    if audio_ts < 0 then []
    else { item := it, pts := pts } :: assignAudioPts start_time audio_tb (some pts) rest

/-- Model of _AudioPacketIterator.iterate_audio_packets: gap-fill (or drop markers)
then assign monotonic audio pts; none when the gap filler would crash. -/
def iterateAudioPackets (start_time audio_tb : ℚ) (sil : ℚ → ℚ → List OutItem)
    (fill_gaps : Bool) (items : List AudioItem) : Option (List MuxedAudioPacket) :=
  let stream := if fill_gaps then fillGaps sil items else some (dropMarkers items)
  stream.map (assignAudioPts start_time audio_tb none)

/-! Small facts about the configuration step: it touches only the
configuration fields. -/

@[simp] theorem configureIfNeeded_start_time (s : WriterState) (f : Frame) :
    (configureIfNeeded s f).start_time = s.start_time := by
  unfold configureIfNeeded; split <;> rfl

@[simp] theorem configureIfNeeded_timestamps (s : WriterState) (f : Frame) :
    (configureIfNeeded s f).timestamps = s.timestamps := by
  unfold configureIfNeeded; split <;> rfl

@[simp] theorem configureIfNeeded_last_video_pts (s : WriterState) (f : Frame) :
    (configureIfNeeded s f).last_video_pts = s.last_video_pts := by
  unfold configureIfNeeded; split <;> rfl

@[simp] theorem configureIfNeeded_closed (s : WriterState) (f : Frame) :
    (configureIfNeeded s f).closed = s.closed := by
  unfold configureIfNeeded; split <;> rfl

@[simp] theorem configureIfNeeded_muxed (s : WriterState) (f : Frame) :
    (configureIfNeeded s f).muxed = s.muxed := by
  unfold configureIfNeeded; split <;> rfl

@[simp] theorem configureIfNeeded_configured (s : WriterState) (f : Frame) :
    (configureIfNeeded s f).configured = true := by
  unfold configureIfNeeded
  split
  · next h => exact h
  · rfl

theorem configureIfNeeded_of_configured (s : WriterState) (f : Frame)
    (h : s.configured = true) : configureIfNeeded s f = s := by
  unfold configureIfNeeded; rw [h]; rfl

/-- Claim C9: close is idempotent. After close has run once, a further
close call leaves the writer state (including the flush, container-close
and timestamp-export counters) completely unchanged. -/
theorem close_is_idempotent (s : WriterState) (f1 f2 : List Packet)
    (fmt1 fmt2 : Option String) :
    closeWriter f2 fmt2 (closeWriter f1 fmt1 s) = closeWriter f1 fmt1 s := by
  by_cases h : s.closed = true
  · have h1 : ∀ (fp : List Packet) (fmt : Option String), closeWriter fp fmt s = s := by
      intro fp fmt; unfold closeWriter; rw [if_pos h]
    rw [h1, h1]
  · have h1 : (closeWriter f1 fmt1 s).closed = true := by
      unfold closeWriter
      rw [if_neg h]
      by_cases hc : s.configured = true <;> by_cases hf : fmt1.isSome <;>
        simp [hc, hf]
    generalize hq : closeWriter f1 fmt1 s = t at h1 ⊢
    unfold closeWriter
    rw [if_pos h1]

/-- Claim C10: a first frame arriving before start_time on an open,
unconfigured writer still performs the one-time configuration (width,
height, on_first_frame, configured flag) and is then dropped: no packet
is muxed, last_video_pts does not advance, and no ledger entry is added. -/
theorem first_frame_before_start_configures_then_drops
    (enc : Frame → ℤ → List Packet) (flushPkts : List Packet)
    (s : WriterState) (f : Frame)
    (hopen : s.closed = false) (hconf : s.configured = false)
    (hts : f.timestamp < s.start_time) :
    writeVideoFrame enc flushPkts s f =
      ({ s with
          configured := true
          width := some f.width
          height := some f.height
          onFirstFrameRun := true }, .beforeStart) := by
  simp [writeVideoFrame, configureIfNeeded, hopen, hconf, hts]

/-- Witness for C10 at a concrete input. -/
theorem first_frame_before_start_configures_then_drops_witness :
    writeVideoFrame jpegEncodeFrame [] (initWriter 10) ⟨640, 480, 5, 0⟩ =
      ({ initWriter 10 with
          configured := true
          width := some 640
          height := some 480
          onFirstFrameRun := true }, .beforeStart) :=
  first_frame_before_start_configures_then_drops jpegEncodeFrame [] (initWriter 10)
    ⟨640, 480, 5, 0⟩ rfl rfl (by norm_num [initWriter])

/-- Claim C8: when encode_frame yields no video-stream packet for the
frame, write_video_frame drops the frame with a warning: the outcome is
encodeFailed and neither last_video_pts nor the timestamp ledger change. -/
theorem encode_failure_drops_frame
    (enc : Frame → ℤ → List Packet) (flushPkts : List Packet)
    (s : WriterState) (f : Frame)
    (hopen : s.closed = false)
    (hts : s.start_time ≤ f.timestamp)
    (hlast : ∀ l, s.timestamps.getLast? = some l → l ≤ f.timestamp)
    (henc : hasVideoPacket
        (enc f (nextPts s.last_video_pts (candidatePts s.start_time f.timestamp))) = false) :
    (writeVideoFrame enc flushPkts s f).2 = .encodeFailed ∧
    (writeVideoFrame enc flushPkts s f).1.last_video_pts = s.last_video_pts ∧
    (writeVideoFrame enc flushPkts s f).1.timestamps = s.timestamps := by
  have hcheck : lastTsCheck s.timestamps f.timestamp = false := by
    unfold lastTsCheck
    cases hl : s.timestamps.getLast? with
    | none => rfl
    | some l => simp [not_lt.mpr (hlast l hl)]
  have hnl : ¬ f.timestamp < s.start_time := not_lt.mpr hts
  unfold writeVideoFrame
  rw [hopen]
  simp [hcheck, hnl, henc]

/-- Witness for C8 at a concrete input: an encoder that yields no packet. -/
theorem encode_failure_drops_frame_witness :
    (writeVideoFrame (fun _ _ => []) [] (initWriter 0) ⟨640, 480, 1, 0⟩).2 =
      .encodeFailed ∧
    (writeVideoFrame (fun _ _ => []) [] (initWriter 0) ⟨640, 480, 1, 0⟩).1.last_video_pts =
      (initWriter 0).last_video_pts ∧
    (writeVideoFrame (fun _ _ => []) [] (initWriter 0) ⟨640, 480, 1, 0⟩).1.timestamps =
      (initWriter 0).timestamps :=
  encode_failure_drops_frame (fun _ _ => []) [] (initWriter 0) ⟨640, 480, 1, 0⟩
    rfl (by norm_num [initWriter]) (fun l h => by simp [initWriter] at h) rfl

/-- Claim C2 (amended): an open, configured writer receiving a frame whose
timestamp is at least start_time but strictly below the last accepted
timestamp first closes the session via release (flushing the encoder,
closing the container, exporting the timestamp ledger, keeping all
previously muxed packets and the ledger intact, with the closed flag set)
and then raises ValueError (outcome nonMonotonicError). -/
theorem nonmonotonic_frame_closes_and_raises
    (enc : Frame → ℤ → List Packet) (flushPkts : List Packet)
    (s : WriterState) (f : Frame)
    (hopen : s.closed = false) (hconf : s.configured = true)
    (hts : s.start_time ≤ f.timestamp)
    (hlast : ∃ l, s.timestamps.getLast? = some l ∧ f.timestamp < l) :
    writeVideoFrame enc flushPkts s f = (releaseWriter flushPkts s, .nonMonotonicError) ∧
    (releaseWriter flushPkts s).closed = true ∧
    (releaseWriter flushPkts s).muxed = s.muxed ++ flushPkts ∧
    (releaseWriter flushPkts s).flushCount = s.flushCount + 1 ∧
    (releaseWriter flushPkts s).containerCloseCount = s.containerCloseCount + 1 ∧
    (releaseWriter flushPkts s).exported = some s.timestamps ∧
    (releaseWriter flushPkts s).timestamps = s.timestamps := by
  obtain ⟨l, hl, hlt⟩ := hlast
  have hcheck : lastTsCheck s.timestamps f.timestamp = true := by
    unfold lastTsCheck; rw [hl]; simp [hlt]
  have hcfg := configureIfNeeded_of_configured s f hconf
  have hnl : ¬ f.timestamp < s.start_time := not_lt.mpr hts
  refine ⟨?_, ?_, ?_, ?_, ?_, ?_, ?_⟩
  · unfold writeVideoFrame
    rw [hopen]
    simp [hcfg, hnl, hcheck]
  all_goals
    unfold releaseWriter closeWriter
    rw [if_neg (by simp [hopen])]
    simp [hconf]

/-- Witness for C2 at a concrete input: previously accepted frame at
timestamp 10, new frame at timestamp 7, start time 5. -/
theorem nonmonotonic_frame_closes_and_raises_witness :
    writeVideoFrame jpegEncodeFrame []
        { initWriter 5 with timestamps := [10], configured := true } ⟨640, 480, 7, 1⟩ =
      (releaseWriter [] { initWriter 5 with timestamps := [10], configured := true },
        .nonMonotonicError) ∧
    (releaseWriter [] { initWriter 5 with timestamps := [10], configured := true }).closed =
      true ∧
    (releaseWriter [] { initWriter 5 with timestamps := [10], configured := true }).muxed =
      { initWriter 5 with timestamps := [10], configured := true }.muxed ++ [] ∧
    (releaseWriter [] { initWriter 5 with
        timestamps := [10], configured := true }).flushCount =
      { initWriter 5 with timestamps := [10], configured := true }.flushCount + 1 ∧
    (releaseWriter [] { initWriter 5 with
        timestamps := [10], configured := true }).containerCloseCount =
      { initWriter 5 with timestamps := [10], configured := true }.containerCloseCount + 1 ∧
    (releaseWriter [] { initWriter 5 with timestamps := [10], configured := true }).exported =
      some { initWriter 5 with timestamps := [10], configured := true }.timestamps ∧
    (releaseWriter [] { initWriter 5 with
        timestamps := [10], configured := true }).timestamps =
      { initWriter 5 with timestamps := [10], configured := true }.timestamps :=
  nonmonotonic_frame_closes_and_raises jpegEncodeFrame []
    { initWriter 5 with timestamps := [10], configured := true } ⟨640, 480, 7, 1⟩
    rfl rfl (by norm_num [initWriter]) ⟨10, by simp, by norm_num⟩

/-- Counterexample to C2 as stated: with start_time 10 a frame at
timestamp 10 is accepted; the next frame at timestamp 5 is strictly below
the previously accepted timestamp, yet the writer drops it as a pre-start
frame without raising and without closing the session. -/
theorem nonmonotonic_claim_counterexample :
    (runFrames jpegEncodeFrame [] (initWriter 10)
        [⟨640, 480, 10, 0⟩, ⟨640, 480, 5, 1⟩]).2 =
      [.accepted 0, .beforeStart] ∧
    (runFrames jpegEncodeFrame [] (initWriter 10)
        [⟨640, 480, 10, 0⟩, ⟨640, 480, 5, 1⟩]).1.closed = false ∧
    (runFrames jpegEncodeFrame [] (initWriter 10)
        [⟨640, 480, 10, 0⟩, ⟨640, 480, 5, 1⟩]).1.timestamps = [10] := by
  norm_num [runFrames, writeVideoFrame, configureIfNeeded, lastTsCheck,
    hasVideoPacket, jpegEncodeFrame, nextPts, candidatePts, pyInt, time_base,
    initWriter]

/-- The continuation predicate of the audio drain loop: true when the
packet timestamp does not exceed the frame timestamp, so the loop yields
it and keeps iterating. -/
def drainKeep (audio_tb frame_ts : ℚ) (p : AudioPacket) : Bool :=
  !decide (frame_ts < (p.pts : ℚ) * audio_tb)

theorem drainAudioPackets_spec (audio_tb frame_ts : ℚ) (queue : List AudioPacket) :
    (drainAudioPackets audio_tb frame_ts queue).1 =
      queue.takeWhile (drainKeep audio_tb frame_ts) ++
        (queue.dropWhile (drainKeep audio_tb frame_ts)).take 1 ∧
    (drainAudioPackets audio_tb frame_ts queue).2 =
      (queue.dropWhile (drainKeep audio_tb frame_ts)).drop 1 := by
  induction queue with
  | nil => simp [drainAudioPackets]
  | cons p rest ih =>
    by_cases h : frame_ts < (p.pts : ℚ) * audio_tb
    · simp [drainAudioPackets, h, drainKeep, List.takeWhile_cons, List.dropWhile_cons]
    · simp [drainAudioPackets, h, drainKeep, List.takeWhile_cons, List.dropWhile_cons,
        ih.1, ih.2]

theorem take_one_dropWhile_not (P : α → Bool) (l : List α) (x : α)
    (hx : x ∈ (l.dropWhile P).take 1) : P x = false := by
  induction l with
  | nil => simp at hx
  | cons a t ih =>
    by_cases h : P a
    · rw [List.dropWhile_cons, if_pos h] at hx
      exact ih hx
    · rw [List.dropWhile_cons, if_neg h] at hx
      simp at hx
      rw [hx]
      cases hPa : P a with
      | false => rfl
      | true => exact absurd hPa h

/-- Claim C3: with an audio stream configured, encode_frame yields the
video packets of the current frame first, then audio packets from the
stateful iterator in their order, up to and including the first packet
whose timestamp (pts times the audio time base) exceeds the frame
timestamp (the assigned video pts times the video time base); every
earlier drained packet does not exceed the frame timestamp, the final
drained packet (when the queue did not run out) exceeds it, and the
leftover queue is exactly the paused iterator state, so the next call
resumes from that point with nothing lost. -/
theorem encode_frame_drains_audio_up_to_frame (videoPkts : List Packet)
    (audio_tb : ℚ) (pts : ℤ) (queue : List AudioPacket) :
    (encodeFrameWithAudio videoPkts audio_tb pts queue).1 =
      videoPkts ++
        ((queue.takeWhile (drainKeep audio_tb ((pts : ℚ) * time_base)) ++
          (queue.dropWhile (drainKeep audio_tb ((pts : ℚ) * time_base))).take 1).map
            (fun p => { stream := StreamId.audio, pts := p.pts, dts := p.pts })) ∧
    (∀ p ∈ queue.takeWhile (drainKeep audio_tb ((pts : ℚ) * time_base)),
      (p.pts : ℚ) * audio_tb ≤ (pts : ℚ) * time_base) ∧
    (∀ p ∈ (queue.dropWhile (drainKeep audio_tb ((pts : ℚ) * time_base))).take 1,
      (pts : ℚ) * time_base < (p.pts : ℚ) * audio_tb) ∧
    (encodeFrameWithAudio videoPkts audio_tb pts queue).2 =
      (queue.dropWhile (drainKeep audio_tb ((pts : ℚ) * time_base))).drop 1 ∧
    (drainAudioPackets audio_tb ((pts : ℚ) * time_base) queue).1 ++
      (encodeFrameWithAudio videoPkts audio_tb pts queue).2 = queue := by
  have hs := drainAudioPackets_spec audio_tb ((pts : ℚ) * time_base) queue
  refine ⟨?_, ?_, ?_, ?_, ?_⟩
  · simp only [encodeFrameWithAudio]
    rw [hs.1]
  · intro p hp
    have := List.mem_takeWhile_imp hp
    simpa [drainKeep, not_lt] using this
  · intro p hp
    have := take_one_dropWhile_not _ _ _ hp
    simpa [drainKeep] using this
  · simp only [encodeFrameWithAudio]
    rw [hs.2]
  · simp only [encodeFrameWithAudio]
    rw [hs.1, hs.2, List.append_assoc, List.take_append_drop,
      List.takeWhile_append_dropWhile]

theorem chunkList_sum (fs : ℕ) (hfs : 0 < fs) :
    ∀ (n : ℕ) (sc : ℤ), 0 ≤ sc → (⌈(sc : ℚ) / (fs : ℚ)⌉).toNat = n →
    ((List.range n).map (fun (i : ℕ) => min (sc - (i : ℤ) * (fs : ℤ)) (fs : ℤ))).sum = sc := by
  have hfs0 : (0 : ℚ) < (fs : ℚ) := by exact_mod_cast hfs
  intro n
  induction n with
  | zero =>
    intro sc hsc hn
    have hceil : ⌈(sc : ℚ) / (fs : ℚ)⌉ ≤ 0 := Int.toNat_eq_zero.mp hn
    have hq : (sc : ℚ) / (fs : ℚ) ≤ ((0 : ℤ) : ℚ) := Int.ceil_le.mp hceil
    have hkey : (sc : ℚ) = ((sc : ℚ) / (fs : ℚ)) * (fs : ℚ) :=
      (div_mul_cancel₀ (sc : ℚ) (ne_of_gt hfs0)).symm
    have hscle : (sc : ℚ) ≤ 0 := by nlinarith
    have hsc0 : sc = 0 := le_antisymm (by exact_mod_cast hscle) hsc
    simp [hsc0]
  | succ n ih =>
    intro sc hsc hn
    rw [List.range_succ_eq_map, List.map_cons, List.map_map, List.sum_cons]
    have hmapeq : ((List.range n).map
          ((fun i : ℕ => min (sc - (i : ℤ) * (fs : ℤ)) (fs : ℤ)) ∘ Nat.succ)) =
        (List.range n).map (fun i : ℕ => min ((sc - fs) - (i : ℤ) * (fs : ℤ)) (fs : ℤ)) := by
      apply List.map_congr_left
      intro a _
      simp only [Function.comp]
      congr 1
      push_cast
      ring
    rw [hmapeq]
    by_cases hcase : sc ≤ (fs : ℤ)
    · have hceil1 : ⌈(sc : ℚ) / (fs : ℚ)⌉ ≤ 1 := by
        have hle : (sc : ℚ) / (fs : ℚ) ≤ ((1 : ℤ) : ℚ) := by
          push_cast
          rw [div_le_one hfs0]
          exact_mod_cast hcase
        exact Int.ceil_le.mpr hle
      have hn0 : n = 0 := by omega
      subst hn0
      simp only [List.range_zero, List.map_nil, List.sum_nil]
      have : min (sc - ((0 : ℕ) : ℤ) * (fs : ℤ)) (fs : ℤ) = sc := by
        rw [Nat.cast_zero, zero_mul, sub_zero]
        exact min_eq_left hcase
      rw [this, add_zero]
    · push_neg at hcase
      have h1 : (0 : ℤ) ≤ sc - fs := by omega
      have hceilprev : (⌈((sc - fs : ℤ) : ℚ) / (fs : ℚ)⌉).toNat = n := by
        have hdiv : ((sc - fs : ℤ) : ℚ) / (fs : ℚ) = (sc : ℚ) / (fs : ℚ) - 1 := by
          push_cast
          field_simp
        rw [hdiv, Int.ceil_sub_one]
        have hpos : 0 < ⌈(sc : ℚ) / (fs : ℚ)⌉ := by
          rw [Int.ceil_pos]
          apply div_pos _ hfs0
          have : (fs : ℚ) < (sc : ℚ) := by exact_mod_cast hcase
          linarith
        omega
      have ihres := ih (sc - fs) h1 (by exact_mod_cast hceilprev)
      rw [ihres]
      have hhead : min (sc - ((0 : ℕ) : ℤ) * (fs : ℤ)) (fs : ℤ) = (fs : ℤ) := by
        rw [Nat.cast_zero, zero_mul, sub_zero]
        exact min_eq_right (le_of_lt hcase)
      rw [hhead]
      ring

/-- Claim C4: for a gap of positive duration d, the silence generator
produces in total exactly int(sample_rate * d) samples, which is within
one codec-frame-size unit of round(sample_rate * d); the samples are
emitted as chunks equal to the codec frame size except possibly the last
chunk, and every chunk is positive and at most the frame size. -/
theorem silence_gap_sample_count (sample_rate frame_size : ℕ) (d : ℚ)
    (hfs : 0 < frame_size) (hd : 0 < d) :
    (silenceChunkSizes sample_rate frame_size d).sum =
      silenceSampleCount sample_rate d ∧
    |(silenceChunkSizes sample_rate frame_size d).sum -
        round ((sample_rate : ℚ) * d)| ≤ (frame_size : ℤ) ∧
    (∀ i (h : i + 1 < (silenceChunkSizes sample_rate frame_size d).length),
      (silenceChunkSizes sample_rate frame_size d).get ⟨i, Nat.lt_of_succ_lt h⟩ =
        (frame_size : ℤ)) ∧
    (∀ c ∈ silenceChunkSizes sample_rate frame_size d,
      0 < c ∧ c ≤ (frame_size : ℤ)) := by
  have hfs0 : (0 : ℚ) < (frame_size : ℚ) := by exact_mod_cast hfs
  have hq0 : (0 : ℚ) ≤ (sample_rate : ℚ) * d := by positivity
  have hscfloor : silenceSampleCount sample_rate d = ⌊(sample_rate : ℚ) * d⌋ := by
    unfold silenceSampleCount pyInt
    rw [if_pos hq0]
  have hsc0 : (0 : ℤ) ≤ silenceSampleCount sample_rate d := by
    rw [hscfloor]
    exact Int.floor_nonneg.mpr hq0
  have hchunks : silenceChunkSizes sample_rate frame_size d =
      (List.range ((⌈((silenceSampleCount sample_rate d : ℤ) : ℚ) /
          (frame_size : ℚ)⌉).toNat)).map
        (fun (i : ℕ) => min (silenceSampleCount sample_rate d - (i : ℤ) * (frame_size : ℤ))
          (frame_size : ℤ)) := rfl
  have hsum : (silenceChunkSizes sample_rate frame_size d).sum =
      silenceSampleCount sample_rate d := by
    rw [hchunks]
    exact chunkList_sum frame_size hfs _ (silenceSampleCount sample_rate d) hsc0 rfl
  refine ⟨hsum, ?_, ?_, ?_⟩
  · rw [hsum, hscfloor, round_eq]
    set q := (sample_rate : ℚ) * d
    have h1 : ⌊q⌋ ≤ ⌊q + 1 / 2⌋ := Int.floor_le_floor (by linarith)
    have h2 : ⌊q + 1 / 2⌋ ≤ ⌊q⌋ + 1 := by
      have hx : ⌊q + 1 / 2⌋ ≤ ⌊q + 1⌋ := Int.floor_le_floor (by linarith)
      rwa [Int.floor_add_one] at hx
    have hfs1 : (1 : ℤ) ≤ (frame_size : ℤ) := by exact_mod_cast hfs
    rw [abs_le]
    omega
  · intro i h
    have hlen : (silenceChunkSizes sample_rate frame_size d).length =
        (⌈((silenceSampleCount sample_rate d : ℤ) : ℚ) / (frame_size : ℚ)⌉).toNat := by
      rw [hchunks, List.length_map, List.length_range]
    have hget : (silenceChunkSizes sample_rate frame_size d).get
        ⟨i, Nat.lt_of_succ_lt h⟩ =
        min (silenceSampleCount sample_rate d - (i : ℤ) * (frame_size : ℤ))
          (frame_size : ℤ) := by
      rw [List.get_of_eq hchunks ⟨i, Nat.lt_of_succ_lt h⟩]
      simp
    rw [hget]
    have hi : ((i : ℤ) + 1) < ⌈((silenceSampleCount sample_rate d : ℤ) : ℚ) /
        (frame_size : ℚ)⌉ := by
      rw [hlen] at h
      omega
    have hilt : (((i : ℤ) + 1 : ℤ) : ℚ) < ((silenceSampleCount sample_rate d : ℤ) : ℚ) /
        (frame_size : ℚ) := Int.lt_ceil.mp hi
    have hmul : (((i : ℤ) + 1 : ℤ) : ℚ) * (frame_size : ℚ) <
        ((silenceSampleCount sample_rate d : ℤ) : ℚ) := by
      rw [lt_div_iff hfs0] at hilt
      exact hilt
    have hmulz : ((i : ℤ) + 1) * (frame_size : ℤ) < silenceSampleCount sample_rate d := by
      exact_mod_cast hmul
    apply min_eq_right
    nlinarith
  · intro c hc
    rw [hchunks] at hc
    rw [List.mem_map] at hc
    obtain ⟨i, hi, hci⟩ := hc
    rw [List.mem_range] at hi
    have hiz : (i : ℤ) < ⌈((silenceSampleCount sample_rate d : ℤ) : ℚ) /
        (frame_size : ℚ)⌉ := by omega
    have hilt : ((i : ℤ) : ℚ) < ((silenceSampleCount sample_rate d : ℤ) : ℚ) /
        (frame_size : ℚ) := Int.lt_ceil.mp hiz
    have hmul : ((i : ℤ) : ℚ) * (frame_size : ℚ) <
        ((silenceSampleCount sample_rate d : ℤ) : ℚ) := by
      rw [lt_div_iff hfs0] at hilt
      exact hilt
    have hmulz : (i : ℤ) * (frame_size : ℤ) < silenceSampleCount sample_rate d := by
      exact_mod_cast hmul
    constructor
    · rw [← hci]
      rw [lt_min_iff]
      constructor
      · omega
      · exact_mod_cast hfs
    · rw [← hci]
      exact min_le_right _ _

/-- The pts values of accepted frames, in order of acceptance. -/
def acceptedPtsList (outs : List WriteOutcome) : List ℤ :=
  outs.filterMap (fun o => match o with | .accepted p => some p | _ => none)

/-- The PTS recurrence as the spec states it: every accepted frame gets
pts = max(int((timestamp - start_time) / time_base), last_video_pts + 1)
where last_video_pts is the value assigned to the previously accepted
frame (initially negative infinity, so the first candidate passes
through unchanged). -/
def specPtsSeq (start_time : ℚ) : Option ℤ → List ℚ → List ℤ
  | _, [] => []
  | none, t :: ts =>
    let p := pyInt ((t - start_time) / time_base)
    p :: specPtsSeq start_time (some p) ts
  | some last, t :: ts =>
    let p := max (pyInt ((t - start_time) / time_base)) (last + 1)
    p :: specPtsSeq start_time (some p) ts

theorem lastTsCheck_eq_false (tss : List ℚ) (ts : ℚ)
    (hlast : ∀ l, tss.getLast? = some l → l ≤ ts) : lastTsCheck tss ts = false := by
  unfold lastTsCheck
  cases hl : tss.getLast? with
  | none => rfl
  | some l => simp [not_lt.mpr (hlast l hl)]

theorem writeVideoFrame_accepted (enc : Frame → ℤ → List Packet)
    (flush : List Packet) (s : WriterState) (f : Frame)
    (hopen : s.closed = false)
    (hts : s.start_time ≤ f.timestamp)
    (hlast : ∀ l, s.timestamps.getLast? = some l → l ≤ f.timestamp)
    (henc : hasVideoPacket
      (enc f (nextPts s.last_video_pts (candidatePts s.start_time f.timestamp))) = true) :
    writeVideoFrame enc flush s f =
      ({ configureIfNeeded s f with
          muxed := s.muxed ++
            enc f (nextPts s.last_video_pts (candidatePts s.start_time f.timestamp))
          last_video_pts :=
            some (nextPts s.last_video_pts (candidatePts s.start_time f.timestamp))
          timestamps := s.timestamps ++ [f.timestamp] },
        .accepted (nextPts s.last_video_pts (candidatePts s.start_time f.timestamp))) := by
  have hcheck : lastTsCheck s.timestamps f.timestamp = false := lastTsCheck_eq_false _ _ hlast
  have hnl : ¬ f.timestamp < s.start_time := not_lt.mpr hts
  simp [writeVideoFrame, hopen, hnl, hcheck, henc]

theorem runFrames_all_accepted (enc : Frame → ℤ → List Packet) (flush : List Packet)
    (henc : ∀ f p, hasVideoPacket (enc f p) = true) :
    ∀ (frames : List Frame) (s : WriterState),
    s.closed = false →
    (∀ f ∈ frames, s.start_time ≤ f.timestamp) →
    List.Chain' (· ≤ ·) (frames.map Frame.timestamp) →
    (∀ l, s.timestamps.getLast? = some l → ∀ f0 ∈ frames.head?, l ≤ f0.timestamp) →
    acceptedPtsList (runFrames enc flush s frames).2 =
      specPtsSeq s.start_time s.last_video_pts (frames.map Frame.timestamp) ∧
    (runFrames enc flush s frames).1.timestamps =
      s.timestamps ++ frames.map Frame.timestamp := by
  intro frames
  induction frames with
  | nil =>
    intro s _ _ _ _
    constructor
    · cases hlv : s.last_video_pts <;> simp [runFrames, acceptedPtsList, specPtsSeq]
    · simp [runFrames]
  | cons f fs ih =>
    intro s hopen hstart hchain hlink
    have hts : s.start_time ≤ f.timestamp := hstart f (by simp)
    have hlast : ∀ l, s.timestamps.getLast? = some l → l ≤ f.timestamp := by
      intro l hl
      exact hlink l hl f (by simp)
    have hstep := writeVideoFrame_accepted enc flush s f hopen hts hlast (henc f _)
    simp only [runFrames, hstep]
    set pts := nextPts s.last_video_pts (candidatePts s.start_time f.timestamp) with hpts
    set s2 : WriterState :=
      { configureIfNeeded s f with
          muxed := s.muxed ++ enc f pts
          last_video_pts := some pts
          timestamps := s.timestamps ++ [f.timestamp] } with hs2
    have hrest := ih s2
      (by simp [hs2, hopen])
      (fun g hg => by
        have : s.start_time ≤ g.timestamp := hstart g (by simp [hg])
        simpa [hs2] using this)
      ((List.chain'_cons'.mp (by simpa using hchain)).2)
      (by
        intro l hl f0 hf0
        have hlts : l = f.timestamp := by
          simp [hs2, List.getLast?_concat] at hl
          exact hl.symm
        subst hlts
        have hhead := (List.chain'_cons'.mp (by simpa using hchain)).1
        have : (fs.map Frame.timestamp).head? = some f0.timestamp := by
          rw [List.head?_map]
          simp only [Option.mem_def] at hf0
          rw [hf0]
          rfl
        exact hhead f0.timestamp (by simp [this]))
    constructor
    · have hcons : acceptedPtsList (WriteOutcome.accepted pts ::
          (runFrames enc flush s2 fs).2) =
          pts :: acceptedPtsList (runFrames enc flush s2 fs).2 := by
        simp [acceptedPtsList]
      rw [hcons, hrest.1]
      have hs2lv : s2.last_video_pts = some pts := by simp [hs2]
      have hs2st : s2.start_time = s.start_time := by simp [hs2]
      rw [hs2lv, hs2st]
      cases hlv : s.last_video_pts with
      | none =>
        rw [hlv] at hpts
        simp [specPtsSeq, hpts, nextPts, candidatePts]
      | some l =>
        rw [hlv] at hpts
        simp [specPtsSeq, hpts, nextPts, candidatePts]
    · rw [hrest.2]
      simp [hs2]

theorem specPtsSeq_head_gt (start : ℚ) (ts : List ℚ) (l : ℤ) :
    ∀ p ∈ (specPtsSeq start (some l) ts).head?, l < p := by
  cases ts with
  | nil => simp [specPtsSeq]
  | cons t rest =>
    intro p hp
    simp [specPtsSeq] at hp
    omega

theorem specPtsSeq_chain' (start : ℚ) :
    ∀ (ts : List ℚ) (last : Option ℤ),
    List.Chain' (· < ·) (specPtsSeq start last ts) := by
  intro ts
  induction ts with
  | nil => intro last; cases last <;> simp [specPtsSeq]
  | cons t rest ih =>
    intro last
    cases last with
    | none =>
      rw [specPtsSeq, List.chain'_cons']
      exact ⟨specPtsSeq_head_gt start rest _, ih _⟩
    | some l =>
      rw [specPtsSeq, List.chain'_cons']
      exact ⟨specPtsSeq_head_gt start rest _, ih _⟩

/-- Claim C1: for a fresh writer and a sequence of frames with
non-decreasing wall-clock timestamps all at least start_time, fed to an
encoder that produces a video packet for every frame, the sequence of
assigned video pts values follows exactly the recurrence
pts = max(int((timestamp - start_time) / time_base), last_video_pts + 1)
(last_video_pts being the value of the previously accepted frame), and
that sequence is strictly increasing. -/
theorem video_pts_strictly_increasing (start : ℚ) (enc : Frame → ℤ → List Packet)
    (flush : List Packet) (frames : List Frame)
    (henc : ∀ f p, hasVideoPacket (enc f p) = true)
    (hstart : ∀ f ∈ frames, start ≤ f.timestamp)
    (hchain : List.Chain' (· ≤ ·) (frames.map Frame.timestamp)) :
    acceptedPtsList (runFrames enc flush (initWriter start) frames).2 =
      specPtsSeq start none (frames.map Frame.timestamp) ∧
    List.Chain' (· < ·)
      (acceptedPtsList (runFrames enc flush (initWriter start) frames).2) := by
  have hmain := runFrames_all_accepted enc flush henc frames (initWriter start)
    rfl (by simpa [initWriter] using hstart) hchain
    (by intro l hl; simp [initWriter] at hl)
  have hseq : acceptedPtsList (runFrames enc flush (initWriter start) frames).2 =
      specPtsSeq start none (frames.map Frame.timestamp) := by
    rw [hmain.1]
    rfl
  exact ⟨hseq, hseq ▸ specPtsSeq_chain' start _ none⟩

/-- Witness for C1: two frames at timestamps 0 and 1 with start time 0;
the first pts is 0 and the second is 65535. -/
theorem video_pts_strictly_increasing_witness :
    acceptedPtsList (runFrames jpegEncodeFrame [] (initWriter 0)
        [⟨640, 480, 0, 0⟩, ⟨640, 480, 1, 1⟩]).2 =
      specPtsSeq 0 none ([⟨640, 480, 0, 0⟩, ⟨640, 480, 1, 1⟩].map Frame.timestamp) ∧
    List.Chain' (· < ·)
      (acceptedPtsList (runFrames jpegEncodeFrame [] (initWriter 0)
        [⟨640, 480, 0, 0⟩, ⟨640, 480, 1, 1⟩]).2) :=
  video_pts_strictly_increasing 0 jpegEncodeFrame []
    [⟨640, 480, 0, 0⟩, ⟨640, 480, 1, 1⟩]
    (fun _ _ => rfl) (by norm_num) (by norm_num)

theorem closeWriter_timestamps (fp : List Packet) (fmt : Option String)
    (s : WriterState) : (closeWriter fp fmt s).timestamps = s.timestamps := by
  unfold closeWriter
  by_cases h : s.closed = true
  · rw [if_pos h]
  · rw [if_neg h]
    by_cases hc : s.configured = true <;> by_cases hf : fmt.isSome <;> simp [hc, hf]

theorem writeVideoFrame_timestamps_chain (enc : Frame → ℤ → List Packet)
    (flush : List Packet) (s : WriterState) (f : Frame)
    (h : List.Chain' (· ≤ ·) s.timestamps) :
    List.Chain' (· ≤ ·) (writeVideoFrame enc flush s f).1.timestamps := by
  simp only [writeVideoFrame]
  split_ifs with h1 h2 h3 h4
  · exact h
  · simpa using h
  · simpa [releaseWriter, closeWriter_timestamps] using h
  · have h3s : lastTsCheck s.timestamps f.timestamp = false := by
      rw [configureIfNeeded_timestamps] at h3
      exact Bool.not_eq_true _ ▸ (by simpa using h3)
    have hlink : ∀ l, s.timestamps.getLast? = some l → l ≤ f.timestamp := by
      intro l hl
      unfold lastTsCheck at h3s
      rw [hl] at h3s
      simpa using h3s
    simp only [configureIfNeeded_timestamps]
    rw [List.chain'_append]
    refine ⟨h, List.chain'_singleton _, ?_⟩
    intro x hx y hy
    simp at hy
    subst hy
    exact hlink x (by simpa using hx)
  · simpa using h

/-- Claim C7 (amended): the timestamp ledger is non-decreasing (it never
loses order, but consecutive entries may be equal, since a frame whose
timestamp equals the previous one is accepted) after every sequence of
write_video_frame calls. -/
theorem timestamp_ledger_nondecreasing (enc : Frame → ℤ → List Packet)
    (flush : List Packet) (frames : List Frame) (s : WriterState)
    (h : List.Chain' (· ≤ ·) s.timestamps) :
    List.Chain' (· ≤ ·) (runFrames enc flush s frames).1.timestamps := by
  induction frames generalizing s with
  | nil => simpa [runFrames] using h
  | cons f fs ih =>
    simp only [runFrames]
    exact ih _ (writeVideoFrame_timestamps_chain enc flush s f h)

/-- Witness for C7 (amended) at a concrete run. -/
theorem timestamp_ledger_nondecreasing_witness :
    List.Chain' (· ≤ ·) (initWriter 0).timestamps ∧
    List.Chain' (· ≤ ·)
      (runFrames jpegEncodeFrame [] (initWriter 0)
        [⟨640, 480, 1, 0⟩, ⟨640, 480, 1, 1⟩]).1.timestamps :=
  ⟨by simp [initWriter],
    timestamp_ledger_nondecreasing jpegEncodeFrame []
      [⟨640, 480, 1, 0⟩, ⟨640, 480, 1, 1⟩] (initWriter 0) (by simp [initWriter])⟩

/-- Counterexample to C7 as stated: two frames with the same timestamp 1
are both accepted, so the ledger contains two equal entries and is not
strictly increasing. -/
theorem timestamp_ledger_strict_counterexample :
    (runFrames jpegEncodeFrame [] (initWriter 0)
        [⟨640, 480, 1, 0⟩, ⟨640, 480, 1, 1⟩]).1.timestamps = [1, 1] ∧
    (runFrames jpegEncodeFrame [] (initWriter 0)
        [⟨640, 480, 1, 0⟩, ⟨640, 480, 1, 1⟩]).2 =
      [.accepted 65535, .accepted 65536] ∧
    ¬ List.Chain' (· < ·)
      (runFrames jpegEncodeFrame [] (initWriter 0)
        [⟨640, 480, 1, 0⟩, ⟨640, 480, 1, 1⟩]).1.timestamps := by
  have hrun : runFrames jpegEncodeFrame [] (initWriter 0)
      [⟨640, 480, 1, 0⟩, ⟨640, 480, 1, 1⟩] =
      ((runFrames jpegEncodeFrame [] (initWriter 0)
        [⟨640, 480, 1, 0⟩, ⟨640, 480, 1, 1⟩]).1,
       (runFrames jpegEncodeFrame [] (initWriter 0)
        [⟨640, 480, 1, 0⟩, ⟨640, 480, 1, 1⟩]).2) := rfl
  refine ⟨?_, ?_, ?_⟩
  · norm_num [runFrames, writeVideoFrame, configureIfNeeded, lastTsCheck,
      hasVideoPacket, jpegEncodeFrame, nextPts, candidatePts, pyInt, time_base,
      initWriter]
  · norm_num [runFrames, writeVideoFrame, configureIfNeeded, lastTsCheck,
      hasVideoPacket, jpegEncodeFrame, nextPts, candidatePts, pyInt, time_base,
      initWriter]
  · intro hchain
    have h1 : (runFrames jpegEncodeFrame [] (initWriter 0)
        [⟨640, 480, 1, 0⟩, ⟨640, 480, 1, 1⟩]).1.timestamps = [1, 1] := by
      norm_num [runFrames, writeVideoFrame, configureIfNeeded, lastTsCheck,
        hasVideoPacket, jpegEncodeFrame, nextPts, candidatePts, pyInt, time_base,
        initWriter]
    rw [h1] at hchain
    have := List.chain'_cons.mp hchain
    exact absurd this.1 (by norm_num)

/-- Witness for C4 at sample_rate 2, frame_size 3, gap duration 5/2:
5 samples in chunks [3, 2]. -/
theorem silence_gap_sample_count_witness :
    (silenceChunkSizes 2 3 (5/2)).sum = silenceSampleCount 2 (5/2) ∧
    |(silenceChunkSizes 2 3 (5/2)).sum - round (((2 : ℕ) : ℚ) * (5/2))| ≤
      ((3 : ℕ) : ℤ) ∧
    (∀ i (h : i + 1 < (silenceChunkSizes 2 3 (5/2)).length),
      (silenceChunkSizes 2 3 (5/2)).get ⟨i, Nat.lt_of_succ_lt h⟩ = ((3 : ℕ) : ℤ)) ∧
    (∀ c ∈ silenceChunkSizes 2 3 (5/2), 0 < c ∧ c ≤ ((3 : ℕ) : ℤ)) :=
  silence_gap_sample_count 2 3 (5/2) (by norm_num) (by norm_num)

/-- Claim C5 (amended): the gap-filling iterator produces no leading
silence span. The initial history entry (None, None) is not the part-end
marker, so when the raw stream begins with a real packet the gap-filled
output begins with that same packet and nothing precedes it — even when
that packet's timestamp is later than the recording start (the gap filler
never sees the recording start time at all). -/
theorem fillGaps_no_leading_silence (sil : ℚ → ℚ → List OutItem)
    (p : RawPacket) (ts : ℚ) (rest : List AudioItem) (out : List OutItem)
    (h : fillGaps sil (.pkt p ts :: rest) = some out) :
    ∃ tail, out = .real p ts :: tail := by
  have h2 : Option.map (fun o => yieldOfItem (AudioItem.pkt p ts) ++ o)
      (fillGapsAux sil rest [some (.pkt p ts), none]) = some out := h
  cases hr : fillGapsAux sil rest [some (.pkt p ts), none] with
  | none =>
    rw [hr] at h2
    simp at h2
  | some o =>
    rw [hr] at h2
    simp [yieldOfItem] at h2
    exact ⟨o, h2.symm⟩

/-- Witness for C5 (amended) at a concrete input. -/
theorem fillGaps_no_leading_silence_witness :
    fillGaps (silenceItems 8000 1024) [.pkt ⟨1⟩ 5] = some [.real ⟨1⟩ 5] ∧
    ∃ tail, [OutItem.real ⟨1⟩ 5] = .real ⟨1⟩ 5 :: tail :=
  ⟨rfl, fillGaps_no_leading_silence (silenceItems 8000 1024) ⟨1⟩ 5 [] [.real ⟨1⟩ 5] rfl⟩

/-- Counterexample to C5 as stated: a single audio part whose first packet
has timestamp 5, later than the recording start: the gap-filled output is
exactly the real packet, with no leading silence span covering the
interval before it. -/
theorem leading_silence_counterexample :
    fillGaps (silenceItems 8000 1024) [.pkt ⟨1⟩ 5, .marker 0] =
      some [.real ⟨1⟩ 5] ∧
    ∀ it ∈ [OutItem.real ⟨1⟩ 5], it.isSilence = false := by
  constructor
  · rfl
  · intro it hit
    simp at hit
    subst hit
    rfl

/-- A general helper showing the audio pts-assignment loop returns (ending
the whole iteration) at the first item whose relative timestamp is
negative, whatever comes after it. -/
theorem assignAudioPts_neg_head_stops (start_time audio_tb : ℚ) (last : Option ℤ)
    (it : OutItem) (rest : List OutItem) (h : it.ts - start_time < 0) :
    assignAudioPts start_time audio_tb last (it :: rest) = [] := by
  simp [assignAudioPts, h]

/-- Claim C6 (code behavior at the failing input): with start_time 10 and
a single audio part yielding packets at raw timestamps 9 and 11, the
iterator yields nothing at all: the generator returns at the first
pre-start packet, so the later packet with non-negative relative
timestamp (11) is discarded as well, contradicting the claim that it
would still be yielded. -/
theorem audio_seek_discards_everything :
    iterateAudioPackets 10 (1/100) (silenceItems 8000 1024) true
      [.pkt ⟨1⟩ 9, .pkt ⟨1⟩ 11, .marker 0] = some [] := by
  have hfill : fillGaps (silenceItems 8000 1024)
      [.pkt ⟨1⟩ 9, .pkt ⟨1⟩ 11, .marker 0] =
      some [.real ⟨1⟩ 9, .real ⟨1⟩ 11] := rfl
  have hstop : assignAudioPts 10 (1/100) none [.real ⟨1⟩ 9, .real ⟨1⟩ 11] = [] :=
    assignAudioPts_neg_head_stops 10 (1/100) none (.real ⟨1⟩ 9) [.real ⟨1⟩ 11]
      (by norm_num [OutItem.ts])
  show (fillGaps (silenceItems 8000 1024)
      [.pkt ⟨1⟩ 9, .pkt ⟨1⟩ 11, .marker 0]).map (assignAudioPts 10 (1/100) none) =
    some []
  rw [hfill]
  exact congrArg some hstop

end AvWriter
